import Mathlib

/-!
Verification development for the `ocr-label` repository.

The repository is a small Node.js service: an HTTP upload endpoint
(`server.js`), a retrying OCR vendor client (`postToExternalApi` in the
ocr-service module), a response-text extractor and label verifier
(`extractParsedText`, `normalize`, `verifyLabels`, `isVerificationComplete`
in the label-verifier module) and an orchestrator (`processOcrResponse` in
`lib/upload-processor.js`).

This file shallowly embeds those functions in Lean.  JavaScript strings are
modelled as Lean `String`/`List Char`; JSON values as an explicit inductive
`JsValue`; the asynchronous retry loop as a pure function over an abstract
per-attempt transport.  JavaScript built-ins used by the code (`normalize
("NFKD")`, `toLowerCase`, `parseFloat`, number-to-string, the regular
expression of the alcohol matcher) are modelled explicitly; Unicode tables
are finite approximations (identity outside the table), noted at each
definition.
-/

namespace OcrLabel

/-! ### JavaScript whitespace (the `\s` class, `String.prototype.trim`) -/

/-- The characters of the JavaScript `\s` regular-expression class
(whitespace, line terminators, NBSP and the Unicode space separators).
`replace(/\s+/g, " ")` and `trim()` in `normalize` both use this set. -/
def wsChars : List Char :=
  [' ', '\t', '\n', '\r', '\x0b', '\x0c',
   '\u00a0', '\u1680',
   '\u2000', '\u2001', '\u2002', '\u2003', '\u2004', '\u2005',
   '\u2006', '\u2007', '\u2008', '\u2009', '\u200a',
   '\u2028', '\u2029', '\u202f', '\u205f', '\u3000', '\ufeff']

/-- Whether a character is JavaScript whitespace. -/
def isWs (c : Char) : Bool := wsChars.contains c

/-! ### Finite models of `String.prototype.normalize("NFKD")` and
`toLowerCase` -/

/-- Association-list lookup with propositional character equality
(used for the finite Unicode tables below). -/
def lookupChar {α : Type} (c : Char) : List (Char × α) → Option α
  | [] => none
  | (k, v) :: rest => if c = k then some v else lookupChar c rest

/-- Finite model of the NFKD decomposition table: each listed character
decomposes to the given character list; characters outside the table are
taken to be NFKD-inert.  Covers the Latin-1 accented letters, the
no-break space and a few compatibility characters; this is the subset of
Unicode the development reasons about. -/
def nfkdTable : List (Char × List Char) :=
  [('\u00c0', ['A', '\u0300']),
   ('\u00c1', ['A', '\u0301']),
   ('\u00c2', ['A', '\u0302']),
   ('\u00c3', ['A', '\u0303']),
   ('\u00c4', ['A', '\u0308']),
   ('\u00c5', ['A', '\u030a']),
   ('\u00c7', ['C', '\u0327']),
   ('\u00c8', ['E', '\u0300']),
   ('\u00c9', ['E', '\u0301']),
   ('\u00ca', ['E', '\u0302']),
   ('\u00cb', ['E', '\u0308']),
   ('\u00d1', ['N', '\u0303']),
   ('\u00d3', ['O', '\u0301']),
   ('\u00d6', ['O', '\u0308']),
   ('\u00da', ['U', '\u0301']),
   ('\u00dc', ['U', '\u0308']),
   ('\u00e0', ['a', '\u0300']),
   ('\u00e1', ['a', '\u0301']),
   ('\u00e2', ['a', '\u0302']),
   ('\u00e3', ['a', '\u0303']),
   ('\u00e4', ['a', '\u0308']),
   ('\u00e5', ['a', '\u030a']),
   ('\u00e7', ['c', '\u0327']),
   ('\u00e8', ['e', '\u0300']),
   ('\u00e9', ['e', '\u0301']),
   ('\u00ea', ['e', '\u0302']),
   ('\u00eb', ['e', '\u0308']),
   ('\u00ec', ['i', '\u0300']),
   ('\u00ed', ['i', '\u0301']),
   ('\u00f1', ['n', '\u0303']),
   ('\u00f2', ['o', '\u0300']),
   ('\u00f3', ['o', '\u0301']),
   ('\u00f6', ['o', '\u0308']),
   ('\u00f9', ['u', '\u0300']),
   ('\u00fa', ['u', '\u0301']),
   ('\u00fc', ['u', '\u0308']),
   ('\u00a0', [' ']),
   ('\ufb01', ['f', 'i']), ('\ufb02', ['f', 'l']),
   ('\u00b2', ['2']), ('\u00b3', ['3'])]

/-- NFKD decomposition of one character under the finite table. -/
def nfkdChar (c : Char) : List Char := (lookupChar c nfkdTable).getD [c]

/-- NFKD decomposition of a character list (model of
`String.prototype.normalize("NFKD")`). -/
def nfkdL : List Char → List Char
  | [] => []
  | c :: t => nfkdChar c ++ nfkdL t

/-- Finite model of `toLowerCase`: the 26 ASCII uppercase letters map to
their lowercase forms, all other characters are unchanged.  (In the real
code `toLowerCase` runs after NFKD decomposition, so accented letters have
already been split into an ASCII base letter plus a combining mark.) -/
def lowerTable : List (Char × Char) :=
  [('A', 'a'), ('B', 'b'), ('C', 'c'), ('D', 'd'), ('E', 'e'), ('F', 'f'),
   ('G', 'g'), ('H', 'h'), ('I', 'i'), ('J', 'j'), ('K', 'k'), ('L', 'l'),
   ('M', 'm'), ('N', 'n'), ('O', 'o'), ('P', 'p'), ('Q', 'q'), ('R', 'r'),
   ('S', 's'), ('T', 't'), ('U', 'u'), ('V', 'v'), ('W', 'w'), ('X', 'x'),
   ('Y', 'y'), ('Z', 'z')]

/-- Lowercase one character under the finite table. -/
def toLowerCh (c : Char) : Char := (lookupChar c lowerTable).getD c

/-! ### `replace(/\s+/g, " ")` and `trim()` -/

/-- Collapse runs of whitespace to a single space, as
`replace(/\s+/g, " ")` does.  The boolean flag records whether the
previous character belonged to a whitespace run already replaced. -/
def collapseL : Bool → List Char → List Char
  | _, [] => []
  | prevWs, c :: t =>
    if isWs c then
      if prevWs then collapseL true t else ' ' :: collapseL true t
    else c :: collapseL false t

/-- Drop a trailing whitespace run (the right half of `trim()`). -/
def dropTrailingWs : List Char → List Char
  | [] => []
  | c :: t =>
    match dropTrailingWs t with
    | [] => if isWs c then [] else [c]
    | t' => c :: t'

/-- `String.prototype.trim()`: drop leading and trailing whitespace. -/
def trimL (l : List Char) : List Char := dropTrailingWs (l.dropWhile isWs)

/-- The `normalize` helper of the label-verifier module:
`s.toString().normalize("NFKD").replace(/\s+/g, " ").trim().toLowerCase()`,
on character lists. -/
def normalizeL (l : List Char) : List Char :=
  (trimL (collapseL false (nfkdL l))).map toLowerCh

/-- The `normalize` helper of the label-verifier module on strings
(a `null`/`undefined` argument is modelled by the empty string, matching
`(s || "")`). -/
def normalize (s : String) : String := String.mk (normalizeL s.data)

/-! ### `String.prototype.includes` -/

/-- Does `hay` start with `needle`?  (Literal character comparison.) -/
def startsWithL : List Char → List Char → Bool
  | _, [] => true
  | [], _ :: _ => false
  | h :: hs, n :: ns => h = n && startsWithL hs ns

/-- `hay.includes(needle)` on character lists. -/
def includesL (needle : List Char) : List Char → Bool
  | [] => startsWithL [] needle
  | h :: t => startsWithL (h :: t) needle || includesL needle t

/-- `hay.includes(needle)` on strings. -/
def strIncludes (hay needle : String) : Bool := includesL needle.data hay.data

/-! ### JSON values (the vendor response body) -/

mutual

/-- A JSON value as handled by the JavaScript code.  Numbers are modelled
as integers (the only numbers the code inspects are the small
`OCRExitCode` values). -/
inductive JsValue where
  | null
  | bool (b : Bool)
  | num (n : Int)
  | str (s : String)
  | arr (xs : JsArr)
  | obj (fs : JsObj)

/-- A JSON array (spelled out so that all recursions are structural). -/
inductive JsArr where
  | nil
  | cons (hd : JsValue) (tl : JsArr)

/-- A JSON object: an ordered list of key/value fields. -/
inductive JsObj where
  | nil
  | cons (key : String) (val : JsValue) (tl : JsObj)

end

/-- Field lookup in a JSON object (property access `o.k`). -/
def JsObj.get : JsObj → String → Option JsValue
  | .nil, _ => none
  | .cons k v t, key => if key = k then some v else JsObj.get t key

/-- Property access `v.k`: `undefined` (here `none`) unless `v` is an
object with the field. -/
def JsValue.getField : JsValue → String → Option JsValue
  | .obj fs, key => fs.get key
  | _, _ => none

/-- JavaScript truthiness of a JSON value. -/
def jsTruthy : JsValue → Bool
  | .null => false
  | .bool b => b
  | .num n => n != 0
  | .str s => s != ""
  | .arr _ => true
  | .obj _ => true

/-- The elements of a JSON array as a Lean list. -/
def JsArr.toList : JsArr → List JsValue
  | .nil => []
  | .cons x t => x :: JsArr.toList t

mutual

/-- JavaScript `String(v)` coercion. -/
def jsToString : JsValue → String
  | .null => "null"
  | .bool b => cond b "true" "false"
  | .num n => toString n
  | .str s => s
  | .obj _ => "[object Object]"
  | .arr xs => jsArrJoin xs

/-- `Array.prototype.toString`: elements joined by commas, `null`
rendered as the empty string. -/
def jsArrJoin : JsArr → String
  | .nil => ""
  | .cons x t =>
    (match x with
     | JsValue.null => ""
     | _ => jsToString x) ++
    (match t with
     | JsArr.nil => ""
     | _ => "," ++ jsArrJoin t)

end

/-- Escape one character for a JSON string literal (quote and backslash;
control-character escapes are outside the model). -/
def jsonEscapeChar (c : Char) : String :=
  if c = '"' then "\\\"" else if c = '\\' then "\\\\" else String.singleton c

/-- A JSON string literal. -/
def jsonQuote (s : String) : String :=
  "\"" ++ String.join (s.data.map jsonEscapeChar) ++ "\""

mutual

/-- Model of `JSON.stringify` on the `JsValue` fragment. -/
def jsonStringify : JsValue → String
  | .null => "null"
  | .bool b => cond b "true" "false"
  | .num n => toString n
  | .str s => jsonQuote s
  | .arr xs => "[" ++ jsonArrBody xs ++ "]"
  | .obj fs => "\x7b" ++ jsonObjBody fs ++ "\x7d"

/-- Comma-separated serialization of array elements. -/
def jsonArrBody : JsArr → String
  | .nil => ""
  | .cons x t =>
    jsonStringify x ++ (match t with | JsArr.nil => "" | _ => "," ++ jsonArrBody t)

/-- Comma-separated serialization of object fields. -/
def jsonObjBody : JsObj → String
  | .nil => ""
  | .cons k v t =>
    jsonQuote k ++ ":" ++ jsonStringify v ++
      (match t with | JsObj.nil => "" | _ => "," ++ jsonObjBody t)

end

/-! ### The numeric pipeline of the alcohol matcher
(`parseFloat`, `String(numeric)`) -/

/-- ASCII decimal digit test. -/
def isDigitCh (c : Char) : Bool := '0' ≤ c && c ≤ '9'

/-- Numeric value of a digit list. -/
def digitsToNat (l : List Char) : Nat :=
  l.foldl (fun a c => a * 10 + (c.toNat - 48)) 0

/-- Strip trailing `'0'` digits from a fraction digit list. -/
def stripTrailingZeros : List Char → List Char
  | [] => []
  | c :: t =>
    match stripTrailingZeros t with
    | [] => if c = '0' then [] else [c]
    | t' => c :: t'

/-- Render a parsed decimal in the canonical form `String(numeric)`
produces: no leading zeros (the integer part is a `Nat`), no trailing
fraction zeros, no fraction dot when the fraction is empty, `-0` rendered
as `"0"`. -/
def renderNumToken (neg : Bool) (intDs fracDs : List Char) : String :=
  let n := digitsToNat intDs
  let frac := stripTrailingZeros fracDs
  if n = 0 && frac.isEmpty then "0"
  else
    (if neg then "-" else "") ++ toString n ++
      (if frac.isEmpty then "" else "." ++ String.mk frac)

/-- Model of `String(parseFloat(s))`: `none` when `parseFloat` yields
`NaN`, otherwise the canonical decimal rendering of the parsed value.
The model covers sign / integer digits / fraction digits prefixes (the
exponent form and `Infinity` are outside it) and is exact on inputs whose
shortest double representation equals the canonical decimal form. -/
def parseFloatToken (s : String) : Option String :=
  let l := s.data.dropWhile isWs
  let signAndRest : Bool × List Char :=
    match l with
    | '-' :: t => (true, t)
    | '+' :: t => (false, t)
    | t => (false, t)
  let intDs := signAndRest.2.takeWhile isDigitCh
  let rest := signAndRest.2.dropWhile isDigitCh
  let fracDs :=
    match rest with
    | '.' :: t => t.takeWhile isDigitCh
    | _ => []
  if intDs.isEmpty && fracDs.isEmpty then none
  else some (renderNumToken signAndRest.1 intDs fracDs)

/-! ### The alcohol-content regular expression
`new RegExp("\\b" + token + "(?:\\.0)?\\s*(?:%|percent|abv)", "i")`,
tested against the original (non-normalized) OCR text. -/

/-- The regular-expression `\w` word-character class `[A-Za-z0-9_]`. -/
def isWordChar (c : Char) : Bool :=
  ('a' ≤ c && c ≤ 'z') || ('A' ≤ c && c ≤ 'Z') || ('0' ≤ c && c ≤ '9') || c = '_'

/-- Consume a literal pattern case-insensitively (`i` flag); returns the
remaining text on success. -/
def dropPrefixCI : List Char → List Char → Option (List Char)
  | l, [] => some l
  | [], _ :: _ => none
  | h :: hs, p :: ps =>
    if toLowerCh h = toLowerCh p then dropPrefixCI hs ps else none

/-- Does the text start (case-insensitively) with the pattern? -/
def startsWithCI (l pat : List Char) : Bool := (dropPrefixCI l pat).isSome

/-- `\s*(?:%|percent|abv)` at the start of `l`.  The whitespace skip is
maximal-munch, which is exact here because none of the three suffix
alternatives starts with a whitespace character. -/
def suffixAlternatives (l : List Char) : Bool :=
  let l1 := l.dropWhile isWs
  startsWithCI l1 ['%'] || startsWithCI l1 "percent".data ||
    startsWithCI l1 "abv".data

/-- `(?:\.0)?\s*(?:%|percent|abv)` at the start of `l`; the optional
`.0` group is a two-way alternative. -/
def afterTokenMatches (l : List Char) : Bool :=
  suffixAlternatives l ||
    (match l with
     | '.' :: '0' :: rest => suffixAlternatives rest
     | _ => false)

/-- The `\b` assertion between the previous character (`none` at the
start of the text) and the character at the current position. -/
def boundaryBefore (prev : Option Char) (c : Char) : Bool :=
  (match prev with | none => false | some p => isWordChar p) != isWordChar c

/-- Unanchored search (`RegExp.prototype.test`) for
`\b<token>(?:\.0)?\s*(?:%|percent|abv)` with the `i` flag.  The token is
matched literally: the source escapes its dot with
`String(numeric).replace(".", "\\.")`. -/
def alcoholRegexSearch (token : List Char) : Option Char → List Char → Bool
  | _, [] => false
  | prev, c :: rest =>
    (boundaryBefore prev c &&
      (match dropPrefixCI (c :: rest) token with
       | some after => afterTokenMatches after
       | none => false))
    || alcoholRegexSearch token (some c) rest

/-- The alcohol-content matcher of `verifyLabels`: trim the raw value,
parse it with `parseFloat` (not-a-number reports not found), then test
the regular expression against the original OCR text. -/
def alcoholContentMatches (rawValue sourceText : String) : Bool :=
  match parseFloatToken (String.mk (trimL rawValue.data)) with
  | none => false
  | some token => alcoholRegexSearch token.data none sourceText.data

/-! ### `verifyLabels` and `isVerificationComplete`
(label-verifier module) -/

/-- The submitted form fields (`req.body.brandName ?? null`, etc.). -/
structure SubmittedFields where
  brandName : Option String
  productClass : Option String
  alcoholContent : Option String

/-- The result object `{ found: [], missing: [] }` of `verifyLabels`. -/
structure LabelChecks where
  found : List String
  missing : List String
deriving DecidableEq

/-- JavaScript truthiness of a nullable string field
(`null` and `""` are falsy). -/
def truthyStr : Option String → Bool
  | none => false
  | some s => s != ""

/-- One `if (fields.x) { const n = normalize(x); n &&
normalizedParsed.includes(n) }` block of `verifyLabels`:
`none` when the field is skipped, otherwise whether it was found. -/
def checkSubstringField (normalizedParsed : String) (value : Option String) :
    Option Bool :=
  if truthyStr value then
    let n := normalize (value.getD "")
    some (n != "" && strIncludes normalizedParsed n)
  else none

/-- The `if (fields.alcoholContent)` block of `verifyLabels`. -/
def checkAlcoholField (parsedText : String) (value : Option String) :
    Option Bool :=
  if truthyStr value then
    some (alcoholContentMatches (value.getD "") parsedText)
  else none

/-- `labelChecks.found.push(name)` / `labelChecks.missing.push(name)` /
no-op, according to a field check outcome. -/
def pushResult (checks : LabelChecks) (name : String) : Option Bool → LabelChecks
  | none => checks
  | some true => ⟨checks.found ++ [name], checks.missing⟩
  | some false => ⟨checks.found, checks.missing ++ [name]⟩

/-- `verifyLabels(parsedText, fields)`: classify `brandName` and
`productClass` by normalized substring containment and `alcoholContent`
by the numeric regular-expression matcher, in source order. -/
def verifyLabels (parsedText : String) (fields : SubmittedFields) : LabelChecks :=
  let normalizedParsed := normalize parsedText
  let c1 := pushResult ⟨[], []⟩ "brandName"
    (checkSubstringField normalizedParsed fields.brandName)
  let c2 := pushResult c1 "productClass"
    (checkSubstringField normalizedParsed fields.productClass)
  pushResult c2 "alcoholContent"
    (checkAlcoholField parsedText fields.alcoholContent)

/-- `isVerificationComplete(labelChecks)`:
`labelChecks.missing.length === 0 && labelChecks.found.length > 0`. -/
def isVerificationComplete (labelChecks : LabelChecks) : Bool :=
  labelChecks.missing.length == 0 && decide (labelChecks.found.length > 0)

/-! ### `extractParsedText` (label-verifier module) -/

/-- The per-page mapper `p => (p && p.ParsedText) ? p.ParsedText : ""`
together with the string coercion applied by `join`. -/
def parsedTextOf (p : JsValue) : String :=
  if jsTruthy p then
    match p.getField "ParsedText" with
    | some v => if jsTruthy v then jsToString v else ""
    | none => ""
  else ""

/-- The test `Array.isArray(apiData.ParsedResults) &&
apiData.ParsedResults.length > 0`: the head and tail of the page array
when the property is a non-empty array. -/
def nonEmptyParsedResults : Option JsValue → Option (JsValue × JsArr)
  | some (JsValue.arr (JsArr.cons x t)) => some (x, t)
  | _ => none

/-- The test `typeof v === "string"` on a property value. -/
def stringParsedText : Option JsValue → Option String
  | some (JsValue.str s) => some s
  | _ => none

/-- The test `typeof apiData === "string"`. -/
def asString : JsValue → Option String
  | JsValue.str s => some s
  | _ => none

/-- `extractParsedText(apiData, jsonString)`: resolution order over the
recognized response shapes; the `try`/`catch` of the source cannot fire
in this total model and is subsumed by the fallback. -/
def extractParsedText (apiData : JsValue) (jsonString : String) : String :=
  if jsTruthy apiData then
    match nonEmptyParsedResults (apiData.getField "ParsedResults") with
    | some (x, t) =>
      String.intercalate "\n" ((JsArr.cons x t).toList.map parsedTextOf)
    | none =>
      match stringParsedText (apiData.getField "ParsedText") with
      | some s => s
      | none =>
        match asString apiData with
        | some s => s
        | none => jsonString
  else jsonString

/-- `stringifyApiData` of the upload processor: a string body is kept
as-is, anything else is serialized with `JSON.stringify`. -/
def stringifyApiData (apiData : JsValue) : String :=
  match apiData with
  | JsValue.str s => s
  | v => jsonStringify v

/-! ### `postToExternalApi` (ocr-service module) -/

/-- Outcome of one `axios.post` attempt, supplied by an abstract
transport (attempt number → outcome).
`resolved` is a fulfilled promise: the request is sent with
`validateStatus: null`, so every received HTTP response — any status —
resolves (source comment: statuses are handled by the caller).
`rejected` is a rejected promise: `isTimeout` models
`err.code === "ECONNABORTED"`, `respStatus` models
`err.response && err.response.status` (an error that still carries a
response, e.g. a connection broken mid-response). -/
inductive AttemptResult where
  | resolved (status : Nat) (data : JsValue)
  | rejected (isTimeout : Bool) (respStatus : Option Nat)

/-- The value `postToExternalApi` returns:
`{ success, response, error, attempts }`, the response as
`(resp.status, resp.data)` and the error as its
`(isTimeout, responseStatus)` classification. -/
structure ApiCallResult where
  success : Bool
  response : Option (Nat × JsValue)
  error : Option (Bool × Option Nat)
  attempts : Nat

def MAX_RETRIES : Nat := 3

def INITIAL_BACKOFF_MS : Nat := 1000

/-- The retry condition of the catch block:
`isTimeout || (err.response && err.response.status >= 500)`. -/
def isRetryable : AttemptResult → Bool
  | .resolved _ _ => false
  | .rejected isTimeout respStatus =>
    isTimeout ||
      (match respStatus with
       | some s => decide (500 ≤ s)
       | none => false)

/-- The `while (attempt < MAX_RETRIES)` loop of `postToExternalApi`:
`fuel = MAX_RETRIES - attempt` counts the remaining iterations, `lastErr`
the last caught error, and the trace accumulates every backoff sleep
(`INITIAL_BACKOFF_MS * 2 ** (attempt - 1)` milliseconds, executed in the
catch block before `continue`). -/
def retryLoop (transport : Nat → AttemptResult) :
    Nat → Nat → Option (Bool × Option Nat) → List Nat → ApiCallResult × List Nat
  | 0, attempt, lastErr, sleeps => (⟨false, none, lastErr, attempt⟩, sleeps)
  | fuel + 1, attempt, _lastErr, sleeps =>
    match transport (attempt + 1) with
    | .resolved status data =>
      (⟨true, some (status, data), none, attempt + 1⟩, sleeps)
    | .rejected isTimeout respStatus =>
      if isRetryable (.rejected isTimeout respStatus) then
        retryLoop transport fuel (attempt + 1) (some (isTimeout, respStatus))
          (sleeps ++ [INITIAL_BACKOFF_MS * 2 ^ attempt])
      else
        (⟨false, none, some (isTimeout, respStatus), attempt + 1⟩, sleeps)

/-- `postToExternalApi` over an abstract transport: the call result
paired with the trace of backoff sleeps (in milliseconds). -/
def postToExternalApi (transport : Nat → AttemptResult) :
    ApiCallResult × List Nat :=
  retryLoop transport MAX_RETRIES 0 none []

/-! ### `processOcrResponse` (lib/upload-processor.js) and the
`/upload` handler (server.js) -/

/-- An HTTP response of the service, with the JSON body fields the
claims are about.  The interpolated error detail of
`Failed to call external API: ${err.message}` is elided. -/
structure HttpResponse where
  status : Nat
  success : Bool
  reason : String
  attempts : Option Nat
  labelChecks : Option LabelChecks

/-- `typeof v === "object"` for a truthy JSON value. -/
def isObjectLike : JsValue → Bool
  | .obj _ => true
  | .arr _ => true
  | _ => false

/-- JavaScript strict equality `v === n` against a number literal. -/
def jsStrictEqNum (v : JsValue) (n : Int) : Bool :=
  match v with
  | .num m => m == n
  | _ => false

/-- `resp.data && typeof resp.data === "object" ? resp.data.OCRExitCode
: null` of the upload processor. -/
def ocrExitCode (data : JsValue) : Option JsValue :=
  if jsTruthy data && isObjectLike data then data.getField "OCRExitCode"
  else none

/-- The payload-error test of the upload processor:
`exitCode && exitCode !== 1 && exitCode !== 2`. -/
def badExitCode (data : JsValue) : Bool :=
  match ocrExitCode data with
  | some v => jsTruthy v && !(jsStrictEqNum v 1) && !(jsStrictEqNum v 2)
  | none => false

/-- `processOcrResponse` of `lib/upload-processor.js`, from the vendor
call result onwards: transport failure → 502; missing or non-2xx
response → 502; bad payload exit code → 400; otherwise verify and
answer 200. -/
def processOcrResponse (fields : SubmittedFields) (result : ApiCallResult) :
    HttpResponse :=
  if !result.success then
    let isTimeout :=
      match result.error with
      | some (it, _) => it
      | none => false
    ⟨502, false,
      (if isTimeout then "External API timed out"
       else "Failed to call external API"),
      some result.attempts, none⟩
  else
    match result.response with
    | none =>
      ⟨502, false, "External API returned an error status",
        some result.attempts, none⟩
    | some (status, data) =>
      if status < 200 || 300 ≤ status then
        ⟨502, false, "External API returned an error status",
          some result.attempts, none⟩
      else
        let jsonString := stringifyApiData data
        let parsedText := extractParsedText data jsonString
        if badExitCode data then
          ⟨400, false, "External API returned an error code in payload",
            some result.attempts, none⟩
        else
          let labelChecks := verifyLabels parsedText fields
          ⟨200, isVerificationComplete labelChecks,
            (if isVerificationComplete labelChecks then
               "All labels verified successfully"
             else "Could not find required labels in image"),
            some result.attempts, some labelChecks⟩

/-- The `POST /upload` handler of `server.js` after the multer
middleware: `hasFile` is `req.file` presence; the second component
counts the `axios.post` calls made to the OCR vendor (the attempts of
the client when it runs, zero otherwise). -/
def handleUpload (hasFile : Bool) (fields : SubmittedFields)
    (transport : Nat → AttemptResult) : HttpResponse × Nat :=
  if hasFile then
    let result := (postToExternalApi transport).1
    (processOcrResponse fields result, result.attempts)
  else
    (⟨400, false, "Please select an image file to upload.", none, none⟩, 0)

/-! ## Helper lemmas about `verifyLabels` -/

/-- The contribution of one field check to `found`. -/
def foundPart (name : String) : Option Bool → List String
  | some true => [name]
  | _ => []

/-- The contribution of one field check to `missing`. -/
def missingPart (name : String) : Option Bool → List String
  | some false => [name]
  | _ => []

theorem pushResult_found (c : LabelChecks) (n : String) (r : Option Bool) :
    (pushResult c n r).found = c.found ++ foundPart n r := by
  rcases r with - | b
  · simp [pushResult, foundPart]
  · cases b <;> simp [pushResult, foundPart]

theorem pushResult_missing (c : LabelChecks) (n : String) (r : Option Bool) :
    (pushResult c n r).missing = c.missing ++ missingPart n r := by
  rcases r with - | b
  · simp [pushResult, missingPart]
  · cases b <;> simp [pushResult, missingPart]

theorem verifyLabels_found (parsedText : String) (fields : SubmittedFields) :
    (verifyLabels parsedText fields).found =
      foundPart "brandName"
        (checkSubstringField (normalize parsedText) fields.brandName) ++
      (foundPart "productClass"
        (checkSubstringField (normalize parsedText) fields.productClass) ++
       foundPart "alcoholContent"
        (checkAlcoholField parsedText fields.alcoholContent)) := by
  simp [verifyLabels, pushResult_found, List.append_assoc]

theorem verifyLabels_missing (parsedText : String) (fields : SubmittedFields) :
    (verifyLabels parsedText fields).missing =
      missingPart "brandName"
        (checkSubstringField (normalize parsedText) fields.brandName) ++
      (missingPart "productClass"
        (checkSubstringField (normalize parsedText) fields.productClass) ++
       missingPart "alcoholContent"
        (checkAlcoholField parsedText fields.alcoholContent)) := by
  simp [verifyLabels, pushResult_missing, List.append_assoc]

theorem mem_foundPart {name n : String} {r : Option Bool} :
    name ∈ foundPart n r ↔ (name = n ∧ r = some true) := by
  rcases r with - | b
  · simp [foundPart]
  · cases b <;> simp [foundPart]

theorem mem_missingPart {name n : String} {r : Option Bool} :
    name ∈ missingPart n r ↔ (name = n ∧ r = some false) := by
  rcases r with - | b
  · simp [missingPart]
  · cases b <;> simp [missingPart]

theorem checkSubstringField_none_iff {np : String} {v : Option String} :
    checkSubstringField np v = none ↔ truthyStr v = false := by
  cases h : truthyStr v <;> simp [checkSubstringField, h]

theorem checkAlcoholField_none_iff {pt : String} {v : Option String} :
    checkAlcoholField pt v = none ↔ truthyStr v = false := by
  cases h : truthyStr v <;> simp [checkAlcoholField, h]

/-! ## Helper lemmas about the response-shape tests -/

theorem nonEmptyParsedResults_eq_none_iff {o : Option JsValue} :
    nonEmptyParsedResults o = none ↔
      ∀ x t, o ≠ some (JsValue.arr (JsArr.cons x t)) := by
  rcases o with - | v
  · simp [nonEmptyParsedResults]
  · rcases v with - | b | n | s | xs | fs
    · simp [nonEmptyParsedResults]
    · simp [nonEmptyParsedResults]
    · simp [nonEmptyParsedResults]
    · simp [nonEmptyParsedResults]
    · rcases xs with - | ⟨x, t⟩
      · simp [nonEmptyParsedResults]
      · simp [nonEmptyParsedResults]
    · simp [nonEmptyParsedResults]

theorem stringParsedText_eq_none_iff {o : Option JsValue} :
    stringParsedText o = none ↔ ∀ s, o ≠ some (JsValue.str s) := by
  rcases o with - | v
  · simp [stringParsedText]
  · rcases v with - | b | n | s | xs | fs <;> simp [stringParsedText]

theorem asString_eq_none_iff {v : JsValue} :
    asString v = none ↔ ∀ s, v ≠ JsValue.str s := by
  rcases v with - | b | n | s | xs | fs <;> simp [asString]

/-! ## Claims -/

/-- Claim C5: for every `parsedText` and every `fields` record, the
`LabelChecks` returned by `verifyLabels` partitions the submitted field
names: no name is in both `found` and `missing`; a field that is absent
(unset or empty) appears in neither set; a submitted (truthy) field
appears in exactly one of the two. -/
theorem verifyLabels_partitions :
    ∀ (parsedText : String) (fields : SubmittedFields) (name : String),
      (¬(name ∈ (verifyLabels parsedText fields).found ∧
         name ∈ (verifyLabels parsedText fields).missing)) ∧
      (truthyStr fields.brandName = false →
        "brandName" ∉ (verifyLabels parsedText fields).found ∧
        "brandName" ∉ (verifyLabels parsedText fields).missing) ∧
      (truthyStr fields.brandName = true →
        ("brandName" ∈ (verifyLabels parsedText fields).found ↔
         "brandName" ∉ (verifyLabels parsedText fields).missing)) ∧
      (truthyStr fields.productClass = false →
        "productClass" ∉ (verifyLabels parsedText fields).found ∧
        "productClass" ∉ (verifyLabels parsedText fields).missing) ∧
      (truthyStr fields.productClass = true →
        ("productClass" ∈ (verifyLabels parsedText fields).found ↔
         "productClass" ∉ (verifyLabels parsedText fields).missing)) ∧
      (truthyStr fields.alcoholContent = false →
        "alcoholContent" ∉ (verifyLabels parsedText fields).found ∧
        "alcoholContent" ∉ (verifyLabels parsedText fields).missing) ∧
      (truthyStr fields.alcoholContent = true →
        ("alcoholContent" ∈ (verifyLabels parsedText fields).found ↔
         "alcoholContent" ∉ (verifyLabels parsedText fields).missing)) := by
  intro parsedText fields name
  refine ⟨?_, ?_, ?_, ?_, ?_, ?_, ?_⟩
  · rintro ⟨hF, hM⟩
    rw [verifyLabels_found] at hF
    rw [verifyLabels_missing] at hM
    simp only [List.mem_append, mem_foundPart, mem_missingPart] at hF hM
    rcases hF with ⟨rfl, e1⟩ | ⟨rfl, e2⟩ | ⟨rfl, e3⟩ <;>
      rcases hM with ⟨q1, f1⟩ | ⟨q2, f2⟩ | ⟨q3, f3⟩ <;> simp_all
  · intro ht
    have h1 : checkSubstringField (normalize parsedText) fields.brandName = none :=
      checkSubstringField_none_iff.mpr ht
    rw [verifyLabels_found, verifyLabels_missing]
    simp [List.mem_append, mem_foundPart, mem_missingPart, h1]
  · intro ht
    have h1 : checkSubstringField (normalize parsedText) fields.brandName ≠ none := by
      rw [Ne, checkSubstringField_none_iff, ht]; simp
    rcases Option.ne_none_iff_exists'.mp h1 with ⟨b, hb⟩
    rw [verifyLabels_found, verifyLabels_missing]
    cases b <;> simp [List.mem_append, mem_foundPart, mem_missingPart, hb]
  · intro ht
    have h2 : checkSubstringField (normalize parsedText) fields.productClass = none :=
      checkSubstringField_none_iff.mpr ht
    rw [verifyLabels_found, verifyLabels_missing]
    simp [List.mem_append, mem_foundPart, mem_missingPart, h2]
  · intro ht
    have h2 : checkSubstringField (normalize parsedText) fields.productClass ≠ none := by
      rw [Ne, checkSubstringField_none_iff, ht]; simp
    rcases Option.ne_none_iff_exists'.mp h2 with ⟨b, hb⟩
    rw [verifyLabels_found, verifyLabels_missing]
    cases b <;> simp [List.mem_append, mem_foundPart, mem_missingPart, hb]
  · intro ht
    have h3 : checkAlcoholField parsedText fields.alcoholContent = none :=
      checkAlcoholField_none_iff.mpr ht
    rw [verifyLabels_found, verifyLabels_missing]
    simp [List.mem_append, mem_foundPart, mem_missingPart, h3]
  · intro ht
    have h3 : checkAlcoholField parsedText fields.alcoholContent ≠ none := by
      rw [Ne, checkAlcoholField_none_iff, ht]; simp
    rcases Option.ne_none_iff_exists'.mp h3 with ⟨b, hb⟩
    rw [verifyLabels_found, verifyLabels_missing]
    cases b <;> simp [List.mem_append, mem_foundPart, mem_missingPart, hb]

/-- Witness for C5 at a concrete input: the `brandName` field is
submitted, so it lands in exactly one of the two sets. -/
theorem verifyLabels_partitions_witness :
    "brandName" ∈ (verifyLabels "some label" ⟨some "gin", none, none⟩).found ↔
    "brandName" ∉ (verifyLabels "some label" ⟨some "gin", none, none⟩).missing :=
  (verifyLabels_partitions "some label" ⟨some "gin", none, none⟩ "brandName").2.2.1
    (by decide)

/-- Claim C6: `isVerificationComplete` is true exactly when `missing` is
empty and `found` is non-empty; consequently a request whose three fields
are all absent (unset or empty), so that both sets are empty, is never
complete. -/
theorem isVerificationComplete_iff :
    (∀ checks : LabelChecks,
        isVerificationComplete checks = true ↔
          (checks.missing = [] ∧ checks.found ≠ [])) ∧
    (∀ (parsedText : String) (fields : SubmittedFields),
        truthyStr fields.brandName = false →
        truthyStr fields.productClass = false →
        truthyStr fields.alcoholContent = false →
        isVerificationComplete (verifyLabels parsedText fields) = false) := by
  constructor
  · intro checks
    simp [isVerificationComplete, List.length_eq_zero, List.length_pos,
      Nat.pos_iff_ne_zero]
  · intro parsedText fields h1 h2 h3
    simp [verifyLabels, checkSubstringField, checkAlcoholField, h1, h2, h3,
      pushResult, isVerificationComplete]

/-- Witness for C6 at a concrete input: no submitted fields, not
complete. -/
theorem isVerificationComplete_iff_witness :
    isVerificationComplete (verifyLabels "wine label" ⟨none, some "", none⟩) = false :=
  isVerificationComplete_iff.2 "wine label" ⟨none, some "", none⟩
    (by decide) (by decide) (by decide)

/-- Claim C9: an upload request with no file attached is answered with
HTTP 400 and the file-required reason, and the OCR vendor client makes
zero calls, whatever the submitted fields and whatever the vendor
transport would have answered. -/
theorem no_file_400_no_vendor_call :
    ∀ (fields : SubmittedFields) (transport : Nat → AttemptResult),
      (handleUpload false fields transport).1.status = 400 ∧
      (handleUpload false fields transport).1.reason =
        "Please select an image file to upload." ∧
      (handleUpload false fields transport).2 = 0 := by
  intro fields transport
  exact ⟨rfl, rfl, rfl⟩

/-- Claim C10: a `brandName` or `productClass` value that is truthy (a
non-empty string) but normalizes to the empty string is classified into
`missing`: it is neither skipped as absent nor placed in `found`. -/
theorem blank_field_counted_missing :
    ∀ (parsedText : String) (fields : SubmittedFields) (s : String),
      s ≠ "" → normalize s = "" →
      (fields.brandName = some s →
        "brandName" ∈ (verifyLabels parsedText fields).missing ∧
        "brandName" ∉ (verifyLabels parsedText fields).found) ∧
      (fields.productClass = some s →
        "productClass" ∈ (verifyLabels parsedText fields).missing ∧
        "productClass" ∉ (verifyLabels parsedText fields).found) := by
  intro parsedText fields s hne hnorm
  constructor
  · intro hb
    have hr : checkSubstringField (normalize parsedText) fields.brandName =
        some false := by
      simp [checkSubstringField, truthyStr, hb, hne, hnorm]
    rw [verifyLabels_found, verifyLabels_missing]
    simp [List.mem_append, mem_foundPart, mem_missingPart, hr]
  · intro hp
    have hr : checkSubstringField (normalize parsedText) fields.productClass =
        some false := by
      simp [checkSubstringField, truthyStr, hp, hne, hnorm]
    rw [verifyLabels_found, verifyLabels_missing]
    simp [List.mem_append, mem_foundPart, mem_missingPart, hr]

/-- Witness for C10 at a concrete input: a whitespace-only brand name is
reported missing. -/
theorem blank_field_counted_missing_witness :
    "brandName" ∈ (verifyLabels "any text" ⟨some " ", none, none⟩).missing ∧
    "brandName" ∉ (verifyLabels "any text" ⟨some " ", none, none⟩).found :=
  (blank_field_counted_missing "any text" ⟨some " ", none, none⟩ " "
    (by decide) (by decide)).1 rfl

/-- Claim C3: the alcohol-content branch of `verifyLabels`: a value whose
`parseFloat` fails is reported missing; otherwise the field is found
exactly when the regular expression (word boundary, canonical decimal
token, optional `.0`, optional whitespace, suffix `%`/`percent`/`abv`,
case-insensitive) matches the original non-normalized OCR text.  Against
`"ABV 13.5%"` the values `"13.5"` and `"13.50"` both match; against
`"13.5 years"` neither does. -/
theorem alcoholContent_matcher :
    (∀ (parsedText : String) (fields : SubmittedFields) (s : String),
        fields.alcoholContent = some s → s ≠ "" →
        parseFloatToken (String.mk (trimL s.data)) = none →
        "alcoholContent" ∈ (verifyLabels parsedText fields).missing ∧
        "alcoholContent" ∉ (verifyLabels parsedText fields).found) ∧
    (∀ (parsedText : String) (fields : SubmittedFields) (s token : String),
        fields.alcoholContent = some s → s ≠ "" →
        parseFloatToken (String.mk (trimL s.data)) = some token →
        ("alcoholContent" ∈ (verifyLabels parsedText fields).found ↔
          alcoholRegexSearch token.data none parsedText.data = true)) ∧
    verifyLabels "ABV 13.5%" ⟨none, none, some "13.5"⟩ = ⟨["alcoholContent"], []⟩ ∧
    verifyLabels "ABV 13.5%" ⟨none, none, some "13.50"⟩ = ⟨["alcoholContent"], []⟩ ∧
    verifyLabels "13.5 years" ⟨none, none, some "13.5"⟩ = ⟨[], ["alcoholContent"]⟩ ∧
    verifyLabels "13.5 years" ⟨none, none, some "13.50"⟩ = ⟨[], ["alcoholContent"]⟩ := by
  refine ⟨?_, ?_, by decide, by decide, by decide, by decide⟩
  · intro parsedText fields s hs hne hp
    have hr : checkAlcoholField parsedText fields.alcoholContent = some false := by
      simp [checkAlcoholField, truthyStr, hs, hne, alcoholContentMatches, hp]
    rw [verifyLabels_missing, verifyLabels_found]
    simp [List.mem_append, mem_foundPart, mem_missingPart, hr]
  · intro parsedText fields s token hs hne hp
    have hr : checkAlcoholField parsedText fields.alcoholContent =
        some (alcoholRegexSearch token.data none parsedText.data) := by
      simp [checkAlcoholField, truthyStr, hs, hne, alcoholContentMatches, hp]
    rw [verifyLabels_found]
    simp [List.mem_append, mem_foundPart, hr]

/-- Witness for C3 at a concrete input: against `"ABV 13.5%"` the found
verdict for `"13.5"` coincides with the regular-expression search. -/
theorem alcoholContent_matcher_witness :
    "alcoholContent" ∈ (verifyLabels "ABV 13.5%" ⟨none, none, some "13.5"⟩).found ↔
    alcoholRegexSearch "13.5".data none "ABV 13.5%".data = true :=
  alcoholContent_matcher.2.1 "ABV 13.5%" ⟨none, none, some "13.5"⟩ "13.5" "13.5"
    rfl (by decide) (by decide)

/-- Claim C4: `extractParsedText` resolves the body in order — non-empty
`ParsedResults` array (per-page `ParsedText` joined by newlines, missing
`ParsedText` as empty string), then a string-valued `ParsedText` field,
then a string body, then the fallback serialized body (also for a falsy
body; the `try`/`catch` of the source cannot fire in this total model).
On the two-page example it yields the newline join. -/
theorem extractParsedText_resolution :
    (∀ (apiData : JsValue) (jsonString : String) (x : JsValue) (t : JsArr),
        jsTruthy apiData = true →
        apiData.getField "ParsedResults" = some (JsValue.arr (JsArr.cons x t)) →
        extractParsedText apiData jsonString =
          String.intercalate "\n" ((JsArr.cons x t).toList.map parsedTextOf)) ∧
    (∀ p : JsValue, p.getField "ParsedText" = none → parsedTextOf p = "") ∧
    (∀ (apiData : JsValue) (jsonString s : String),
        jsTruthy apiData = true →
        (∀ x t, apiData.getField "ParsedResults" ≠
          some (JsValue.arr (JsArr.cons x t))) →
        apiData.getField "ParsedText" = some (JsValue.str s) →
        extractParsedText apiData jsonString = s) ∧
    (∀ (jsonString s : String), s ≠ "" →
        extractParsedText (JsValue.str s) jsonString = s) ∧
    (∀ (apiData : JsValue) (jsonString : String),
        jsTruthy apiData = true →
        (∀ x t, apiData.getField "ParsedResults" ≠
          some (JsValue.arr (JsArr.cons x t))) →
        (∀ s, apiData.getField "ParsedText" ≠ some (JsValue.str s)) →
        (∀ s, apiData ≠ JsValue.str s) →
        extractParsedText apiData jsonString = jsonString) ∧
    (∀ (apiData : JsValue) (jsonString : String),
        jsTruthy apiData = false →
        extractParsedText apiData jsonString = jsonString) ∧
    extractParsedText
      (JsValue.obj (JsObj.cons "ParsedResults"
        (JsValue.arr (JsArr.cons
          (JsValue.obj (JsObj.cons "ParsedText"
            (JsValue.str "Old Tom\x27s Gin") JsObj.nil))
          (JsArr.cons
            (JsValue.obj (JsObj.cons "ParsedText"
              (JsValue.str "40% abv") JsObj.nil))
            JsArr.nil)))
        JsObj.nil))
      "fallback" = "Old Tom\x27s Gin\n40% abv" := by
  refine ⟨?_, ?_, ?_, ?_, ?_, ?_, by decide⟩
  · intro apiData jsonString x t ht hPR
    simp [extractParsedText, ht, hPR, nonEmptyParsedResults]
  · intro p hPT
    cases htp : jsTruthy p <;> simp [parsedTextOf, htp, hPT]
  · intro apiData jsonString s ht hPR hPT
    have h1 : nonEmptyParsedResults (apiData.getField "ParsedResults") = none :=
      nonEmptyParsedResults_eq_none_iff.mpr hPR
    simp [extractParsedText, ht, h1, hPT, stringParsedText]
  · intro jsonString s hs
    simp [extractParsedText, jsTruthy, hs, JsValue.getField,
      nonEmptyParsedResults, stringParsedText, asString]
  · intro apiData jsonString ht hPR hPT hStr
    have h1 : nonEmptyParsedResults (apiData.getField "ParsedResults") = none :=
      nonEmptyParsedResults_eq_none_iff.mpr hPR
    have h2 : stringParsedText (apiData.getField "ParsedText") = none :=
      stringParsedText_eq_none_iff.mpr hPT
    have h3 : asString apiData = none := asString_eq_none_iff.mpr hStr
    simp [extractParsedText, ht, h1, h2, h3]
  · intro apiData jsonString ht
    simp [extractParsedText, ht]

/-- Witness for C4 at a concrete input: the non-empty `ParsedResults`
branch applied to the two-page example. -/
theorem extractParsedText_resolution_witness :
    extractParsedText
      (JsValue.obj (JsObj.cons "ParsedResults"
        (JsValue.arr (JsArr.cons (JsValue.str "page") JsArr.nil)) JsObj.nil))
      "fb" =
    String.intercalate "\n"
      ((JsArr.cons (JsValue.str "page") JsArr.nil).toList.map parsedTextOf) :=
  extractParsedText_resolution.1
    (JsValue.obj (JsObj.cons "ParsedResults"
      (JsValue.arr (JsArr.cons (JsValue.str "page") JsArr.nil)) JsObj.nil))
    "fb" (JsValue.str "page") JsArr.nil (by decide) rfl

/-! ## Helper lemmas about the retry loop -/

/-- The backoff sleeps generated by retryable failures of attempts
`a + 1, …, a + n`: `INITIAL_BACKOFF_MS * 2 ^ a, …`. -/
def backoffSleeps (a : Nat) : Nat → List Nat
  | 0 => []
  | n + 1 => (INITIAL_BACKOFF_MS * 2 ^ a) :: backoffSleeps (a + 1) n

theorem backoffSleeps_eq_range (n : Nat) : ∀ a, backoffSleeps a n =
    (List.range n).map (fun i => INITIAL_BACKOFF_MS * 2 ^ (a + i)) := by
  induction n with
  | zero => intro a; simp [backoffSleeps]
  | succ m ih =>
    intro a
    rw [List.range_succ_eq_map]
    simp only [backoffSleeps, ih (a + 1), List.map_cons, List.map_map,
      Nat.add_zero, List.cons.injEq, true_and]
    apply List.map_congr_left
    intro i _
    simp only [Function.comp_apply]
    congr 2
    omega

/-- Full characterization of the retry loop: attempt-count bounds, the
exact retry condition, the success criterion and the backoff trace. -/
theorem retryLoop_spec (t : Nat → AttemptResult) :
    ∀ (fuel a : Nat) (lastE : Option (Bool × Option Nat)) (sl : List Nat),
      0 < fuel →
      (a < (retryLoop t fuel a lastE sl).1.attempts ∧
       (retryLoop t fuel a lastE sl).1.attempts ≤ a + fuel) ∧
      (∀ k, a < k → k < (retryLoop t fuel a lastE sl).1.attempts →
        isRetryable (t k) = true) ∧
      ((retryLoop t fuel a lastE sl).1.attempts < a + fuel →
        isRetryable (t (retryLoop t fuel a lastE sl).1.attempts) = false) ∧
      ((retryLoop t fuel a lastE sl).1.success = true ↔
        (∃ s d, t (retryLoop t fuel a lastE sl).1.attempts =
          AttemptResult.resolved s d)) ∧
      ((retryLoop t fuel a lastE sl).2 =
        sl ++ backoffSleeps a ((retryLoop t fuel a lastE sl).1.attempts - a - 1) ++
        (if isRetryable (t (retryLoop t fuel a lastE sl).1.attempts) = true then
          [INITIAL_BACKOFF_MS *
            2 ^ ((retryLoop t fuel a lastE sl).1.attempts - 1)]
         else [])) := by
  intro fuel
  induction fuel with
  | zero => intro a lastE sl h; exact absurd h (by omega)
  | succ m ih =>
    intro a lastE sl _
    rcases ht : t (a + 1) with ⟨s, d⟩ | ⟨it, rs⟩
    · have hstep : retryLoop t (m + 1) a lastE sl =
          (⟨true, some (s, d), none, a + 1⟩, sl) := by
        simp [retryLoop, ht]
      rw [hstep]
      dsimp only
      refine ⟨⟨by omega, by omega⟩, ?_, ?_, ?_, ?_⟩
      · intro k hk1 hk2; omega
      · intro _; rw [ht]; rfl
      · simp [ht]
      · simp [ht, backoffSleeps, isRetryable]
    · by_cases hr : isRetryable (AttemptResult.rejected it rs) = true
      · have hstep : retryLoop t (m + 1) a lastE sl =
            retryLoop t m (a + 1) (some (it, rs))
              (sl ++ [INITIAL_BACKOFF_MS * 2 ^ a]) := by
          simp [retryLoop, ht, hr]
        rw [hstep]
        rcases Nat.eq_zero_or_pos m with hm | hm
        · subst hm
          have hbase : retryLoop t 0 (a + 1) (some (it, rs))
              (sl ++ [INITIAL_BACKOFF_MS * 2 ^ a]) =
              (⟨false, none, some (it, rs), a + 1⟩,
               sl ++ [INITIAL_BACKOFF_MS * 2 ^ a]) := rfl
          rw [hbase]
          dsimp only
          refine ⟨⟨by omega, by omega⟩, ?_, ?_, ?_, ?_⟩
          · intro k hk1 hk2; omega
          · intro hlt; omega
          · simp [ht]
          · rw [ht]
            simp [hr, backoffSleeps]
        · have hspec := ih (a + 1) (some (it, rs))
            (sl ++ [INITIAL_BACKOFF_MS * 2 ^ a]) hm
          obtain ⟨⟨hb1, hb2⟩, hall, hlast, hsucc, hsl⟩ := hspec
          refine ⟨⟨by omega, by omega⟩, ?_, ?_, hsucc, ?_⟩
          · intro k hk1 hk2
            rcases Nat.lt_or_ge (a + 1) k with hak | hak
            · exact hall k hak hk2
            · have : k = a + 1 := by omega
              subst this; rw [ht]; exact hr
          · intro hlt; exact hlast (by omega)
          · rw [hsl]
            have harith :
                (retryLoop t m (a + 1) (some (it, rs))
                  (sl ++ [INITIAL_BACKOFF_MS * 2 ^ a])).1.attempts - a - 1 =
                ((retryLoop t m (a + 1) (some (it, rs))
                  (sl ++ [INITIAL_BACKOFF_MS * 2 ^ a])).1.attempts - (a + 1) - 1)
                  + 1 := by omega
            rw [harith, backoffSleeps]
            simp [List.append_assoc]
      · have hstep : retryLoop t (m + 1) a lastE sl =
            (⟨false, none, some (it, rs), a + 1⟩, sl) := by
          simp [retryLoop, ht, hr]
        rw [hstep]
        dsimp only
        refine ⟨⟨by omega, by omega⟩, ?_, ?_, ?_, ?_⟩
        · intro k hk1 hk2; omega
        · intro _; rw [ht]; simpa using hr
        · simp [ht]
        · rw [ht]
          simp [hr, backoffSleeps]

/-- Claim C1 (amended): the client makes at most 3 attempts; an attempt
is retried exactly when it ends in a thrown error that is a timeout
(`ECONNABORTED`) or carries an error response with status ≥ 500; the call
is a transport success exactly when the final attempt resolved.  Because
the request is sent with `validateStatus: null`, a vendor reply with
status 500 resolves: it is returned as transport success on the first
attempt (`success: true`, `attempts == 1`), and the orchestrator then maps
the non-2xx status to HTTP 502 through its status check — not through the
transport-failure branch. -/
theorem postToExternalApi_retry_policy :
    ∀ (t : Nat → AttemptResult) (fields : SubmittedFields) (d : JsValue),
      (1 ≤ (postToExternalApi t).1.attempts ∧
       (postToExternalApi t).1.attempts ≤ MAX_RETRIES) ∧
      (∀ k, 1 ≤ k → k < (postToExternalApi t).1.attempts →
        isRetryable (t k) = true) ∧
      ((postToExternalApi t).1.attempts < MAX_RETRIES →
        isRetryable (t (postToExternalApi t).1.attempts) = false) ∧
      ((postToExternalApi t).1.success = true ↔
        (∃ s d2, t (postToExternalApi t).1.attempts =
          AttemptResult.resolved s d2)) ∧
      ((postToExternalApi (fun _ => AttemptResult.resolved 500 d)).1.success
          = true ∧
       (postToExternalApi (fun _ => AttemptResult.resolved 500 d)).1.attempts
          = 1 ∧
       (processOcrResponse fields
         (postToExternalApi (fun _ => AttemptResult.resolved 500 d)).1).status
          = 502) := by
  intro t fields d
  obtain ⟨⟨h1, h2⟩, hall, hlast, hsucc, _⟩ :=
    retryLoop_spec t MAX_RETRIES 0 none [] (by decide)
  exact ⟨⟨h1, by simpa using h2⟩,
    (fun k hk1 hk2 => hall k (by omega) hk2),
    (fun hlt => hlast (by simpa using hlt)),
    hsucc, rfl, rfl, rfl⟩

/-- Witness for C1 at a concrete input: with a transport that times out
on every attempt, the first attempt is indeed classified retryable. -/
theorem postToExternalApi_retry_policy_witness :
    isRetryable ((fun _ => AttemptResult.rejected true none) 1) = true :=
  (postToExternalApi_retry_policy (fun _ => AttemptResult.rejected true none)
    ⟨none, none, none⟩ JsValue.null).2.1 1 (by decide) (by decide)

/-- Counterexample to C1 as stated: a vendor that answers status 500 on
every attempt does not produce `success: false` with `attempts == 3`;
the call resolves on the first attempt as a transport success. -/
theorem vendor_500_counterexample :
    (postToExternalApi
      (fun _ => AttemptResult.resolved 500 JsValue.null)).1.success = true ∧
    (postToExternalApi
      (fun _ => AttemptResult.resolved 500 JsValue.null)).1.attempts = 1 :=
  ⟨rfl, rfl⟩

/-- Claim C2 (amended): the backoff slept after a retryably-failed
attempt `k` is `1000ms * 2^(k-1)` (so 1s before the 2nd attempt, 2s
before the 3rd); such a sleep happens after every retryable failure —
including after the final attempt, when its failure is retryable, in
which case a last `1000ms * 2^(attempts-1)` sleep precedes returning the
failure. -/
theorem postToExternalApi_backoff_schedule :
    ∀ t : Nat → AttemptResult,
      (postToExternalApi t).2 =
        (List.range ((postToExternalApi t).1.attempts - 1)).map
          (fun i => INITIAL_BACKOFF_MS * 2 ^ i) ++
        (if isRetryable (t (postToExternalApi t).1.attempts) = true then
          [INITIAL_BACKOFF_MS * 2 ^ ((postToExternalApi t).1.attempts - 1)]
         else []) := by
  intro t
  obtain ⟨-, -, -, -, hsl⟩ := retryLoop_spec t MAX_RETRIES 0 none [] (by decide)
  rw [postToExternalApi] at *
  rw [hsl, backoffSleeps_eq_range]
  simp

/-- Counterexample to C2 as stated: when all three attempts fail
retryably, three backoff sleeps happen (1s, 2s, 4s) although only two
retries are made — the 4s sleep runs after the final attempt fails. -/
theorem backoff_after_final_attempt_counterexample :
    (postToExternalApi (fun _ => AttemptResult.rejected true none)).1.attempts
      = 3 ∧
    (postToExternalApi (fun _ => AttemptResult.rejected true none)).2 =
      [1000, 2000, 4000] :=
  ⟨rfl, rfl⟩

/-- Claim C7: once the orchestrator reaches the verification step
(transport success, 2xx vendor status, no bad payload exit code) it
answers HTTP 200 for every match outcome, reporting the `found`/`missing`
sets and deriving the overall verdict from them. -/
theorem verification_stage_always_200 :
    ∀ (fields : SubmittedFields) (status attempts : Nat) (data : JsValue)
      (err : Option (Bool × Option Nat)),
      200 ≤ status → status < 300 → badExitCode data = false →
      (processOcrResponse fields
        ⟨true, some (status, data), err, attempts⟩).status = 200 ∧
      (processOcrResponse fields
        ⟨true, some (status, data), err, attempts⟩).labelChecks =
        some (verifyLabels (extractParsedText data (stringifyApiData data))
          fields) ∧
      (processOcrResponse fields
        ⟨true, some (status, data), err, attempts⟩).success =
        isVerificationComplete
          (verifyLabels (extractParsedText data (stringifyApiData data))
            fields) := by
  intro fields status attempts data err h1 h2 hbad
  have hc : (decide (status < 200) || decide (300 ≤ status)) = false := by
    simp only [Bool.or_eq_false_iff, decide_eq_false_iff_not]
    omega
  simp [processOcrResponse, hc, hbad]

/-- Witness for C7 at a concrete input: a 2xx vendor reply whose body is
a bare string, all submitted fields matched, 200. -/
theorem verification_stage_always_200_witness :
    (processOcrResponse ⟨none, none, some "13.5"⟩
      ⟨true, some (200, JsValue.str "ABV 13.5%"), none, 2⟩).status = 200 :=
  (verification_stage_always_200 ⟨none, none, some "13.5"⟩ 200 2
    (JsValue.str "ABV 13.5%") none (by decide) (by decide) (by decide)).1

/-! ## Helper lemmas about `normalize` (towards idempotence) -/

/-- Char table lookup membership. -/
theorem lookupChar_mem {α : Type} {c : Char} {v : α} :
    ∀ {tbl : List (Char × α)}, lookupChar c tbl = some v → (c, v) ∈ tbl := by
  intro tbl
  induction tbl with
  | nil => intro h; simp [lookupChar] at h
  | cons p rest ih =>
    obtain ⟨k, w⟩ := p
    intro h
    simp only [lookupChar] at h
    by_cases hc : c = k
    · rw [if_pos hc] at h
      obtain rfl := Option.some.injEq _ _ ▸ h
      subst hc
      exact List.mem_cons_self _ _
    · rw [if_neg hc] at h
      exact List.mem_cons_of_mem _ (ih h)

/-- The decomposition table only produces NFKD-inert characters. -/
theorem nfkdTable_outputs_inert :
    ∀ p ∈ nfkdTable, ∀ d ∈ p.2, lookupChar d nfkdTable = none := by decide

/-- Lowercased letters are NFKD-inert, lowercase-inert and not
whitespace. -/
theorem lowerTable_outputs_inert :
    ∀ p ∈ lowerTable, lookupChar p.2 nfkdTable = none ∧
      lookupChar p.2 lowerTable = none ∧ isWs p.2 = false := by decide

/-- Uppercase letters are not whitespace. -/
theorem lowerTable_keys_not_ws : ∀ p ∈ lowerTable, isWs p.1 = false := by
  decide

/-- The space character is inert for both tables. -/
theorem space_inert : lookupChar ' ' nfkdTable = none ∧
    lookupChar ' ' lowerTable = none := by decide

/-- Lowercasing preserves NFKD-inertness, and its output is
lowercase-inert. -/
theorem toLowerCh_inert {c : Char} (h : lookupChar c nfkdTable = none) :
    lookupChar (toLowerCh c) nfkdTable = none ∧
    lookupChar (toLowerCh c) lowerTable = none := by
  unfold toLowerCh
  cases hl : lookupChar c lowerTable with
  | none => exact ⟨by simpa using h, by simpa using hl⟩
  | some v =>
    have hmem := lookupChar_mem hl
    have hv := lowerTable_outputs_inert (c, v) hmem
    exact ⟨by simpa using hv.1, by simpa using hv.2.1⟩

/-- Lowercasing does not change whitespace-ness. -/
theorem isWs_toLowerCh (c : Char) : isWs (toLowerCh c) = isWs c := by
  unfold toLowerCh
  cases hl : lookupChar c lowerTable with
  | none => rfl
  | some v =>
    have hmem := lookupChar_mem hl
    have hv := lowerTable_outputs_inert (c, v) hmem
    have hk := lowerTable_keys_not_ws (c, v) hmem
    simp only [Option.getD_some]
    rw [hv.2.2, hk]

/-- The normal form reached by `normalizeL`: every character is inert for
both tables, the only whitespace character is the single space, spaces
are never adjacent and never at either end. -/
structure NormalForm (l : List Char) : Prop where
  inert : ∀ c ∈ l, lookupChar c nfkdTable = none ∧
    lookupChar c lowerTable = none ∧ (isWs c = true → c = ' ')
  noAdj : List.Chain' (fun a b => ¬(isWs a = true ∧ isWs b = true)) l
  headOk : ∀ c, l.head? = some c → isWs c = false
  lastOk : ∀ c, l.getLast? = some c → isWs c = false

/-- All characters produced by the NFKD stage are NFKD-inert. -/
theorem nfkdL_inert : ∀ l : List Char, ∀ c ∈ nfkdL l,
    lookupChar c nfkdTable = none := by
  intro l
  induction l with
  | nil => simp [nfkdL]
  | cons x t ih =>
    intro d hd
    simp only [nfkdL, List.mem_append] at hd
    rcases hd with h | h
    · unfold nfkdChar at h
      cases hc : lookupChar x nfkdTable with
      | none =>
        rw [hc] at h
        simp only [Option.getD_none, List.mem_singleton] at h
        subst h
        exact hc
      | some out =>
        rw [hc] at h
        simp only [Option.getD_some] at h
        exact nfkdTable_outputs_inert (x, out) (lookupChar_mem hc) d h
    · exact ih d h

/-- Characters surviving collapse are the space or non-whitespace
characters of the input. -/
theorem collapseL_chars : ∀ (l : List Char) (b : Bool), ∀ c ∈ collapseL b l,
    c = ' ' ∨ (c ∈ l ∧ isWs c = false) := by
  intro l
  induction l with
  | nil => simp [collapseL]
  | cons x t ih =>
    intro b c hc
    by_cases hx : isWs x = true
    · rw [collapseL, if_pos hx] at hc
      cases b with
      | true =>
        rcases ih true c (by simpa using hc) with h | ⟨h1, h2⟩
        · exact Or.inl h
        · exact Or.inr ⟨List.mem_cons_of_mem _ h1, h2⟩
      | false =>
        rw [if_neg Bool.false_ne_true] at hc
        rcases List.mem_cons.mp hc with h | h
        · exact Or.inl h
        · rcases ih true c h with h2 | ⟨h3, h4⟩
          · exact Or.inl h2
          · exact Or.inr ⟨List.mem_cons_of_mem _ h3, h4⟩
    · rw [collapseL, if_neg hx] at hc
      rcases List.mem_cons.mp hc with h | h
      · subst h
        exact Or.inr ⟨List.mem_cons_self _ _, Bool.not_eq_true _ ▸ hx⟩
      · rcases ih false c h with h2 | ⟨h3, h4⟩
        · exact Or.inl h2
        · exact Or.inr ⟨List.mem_cons_of_mem _ h3, h4⟩

/-- Collapse leaves no two adjacent whitespace characters, and after a
whitespace run it starts with a non-whitespace character. -/
theorem collapseL_shape : ∀ (l : List Char) (b : Bool),
    List.Chain' (fun a c => ¬(isWs a = true ∧ isWs c = true)) (collapseL b l) ∧
    (b = true → ∀ c, (collapseL b l).head? = some c → isWs c = false) := by
  intro l
  induction l with
  | nil => intro b; simp [collapseL]
  | cons x t ih =>
    intro b
    by_cases hx : isWs x = true
    · cases b with
      | true =>
        have : collapseL true (x :: t) = collapseL true t := by
          rw [collapseL, if_pos hx, if_pos rfl]
        rw [this]
        exact ih true
      | false =>
        have : collapseL false (x :: t) = ' ' :: collapseL true t := by
          rw [collapseL, if_pos hx, if_neg Bool.false_ne_true]
        rw [this]
        constructor
        · refine List.chain'_cons'.mpr ⟨?_, (ih true).1⟩
          intro y hy
          have := (ih true).2 rfl y hy
          simp [this]
        · intro h; cases h
    · have : collapseL b (x :: t) = x :: collapseL false t := by
        rw [collapseL, if_neg hx]
      rw [this]
      constructor
      · refine List.chain'_cons'.mpr ⟨?_, (ih false).1⟩
        intro y _
        simp [hx]
      · intro _ c hc
        simp only [List.head?_cons, Option.some.injEq] at hc
        subst hc
        exact Bool.not_eq_true _ ▸ hx

/-- Dropping trailing whitespace keeps a sublist. -/
theorem dropTrailingWs_subset : ∀ l : List Char, ∀ c ∈ dropTrailingWs l, c ∈ l := by
  intro l
  induction l with
  | nil => simp [dropTrailingWs]
  | cons x t ih =>
    intro c hc
    simp only [dropTrailingWs] at hc
    cases hdt : dropTrailingWs t with
    | nil =>
      rw [hdt] at hc
      by_cases hx : isWs x = true
      · rw [if_pos hx] at hc; cases hc
      · rw [if_neg hx] at hc
        simp only [List.mem_singleton] at hc
        subst hc
        exact List.mem_cons_self _ _
    | cons y ys =>
      rw [hdt] at hc
      rcases List.mem_cons.mp hc with h | h
      · subst h; exact List.mem_cons_self _ _
      · exact List.mem_cons_of_mem _ (ih c (hdt ▸ h))

/-- Dropping trailing whitespace either empties the list or keeps its
head. -/
theorem dropTrailingWs_head? : ∀ l : List Char,
    dropTrailingWs l = [] ∨ (dropTrailingWs l).head? = l.head? := by
  intro l
  cases l with
  | nil => exact Or.inl rfl
  | cons x t =>
    simp only [dropTrailingWs]
    cases hdt : dropTrailingWs t with
    | nil =>
      by_cases hx : isWs x = true
      · rw [if_pos hx]; exact Or.inl rfl
      · rw [if_neg hx]; exact Or.inr rfl
    | cons y ys => exact Or.inr rfl

/-- `Chain'` is preserved by `dropWhile`. -/
theorem chain'_dropWhile {α : Type} {R : α → α → Prop} {p : α → Bool} :
    ∀ {l : List α}, List.Chain' R l → List.Chain' R (l.dropWhile p) := by
  intro l
  induction l with
  | nil => intro h; exact h
  | cons x t ih =>
    intro h
    by_cases hx : p x
    · rw [List.dropWhile_cons_of_pos hx]
      exact ih h.tail
    · rw [List.dropWhile_cons_of_neg hx]
      exact h

/-- `Chain'` is preserved by dropping trailing whitespace. -/
theorem chain'_dropTrailingWs {R : Char → Char → Prop} :
    ∀ {l : List Char}, List.Chain' R l → List.Chain' R (dropTrailingWs l) := by
  intro l
  induction l with
  | nil => intro h; exact h
  | cons x t ih =>
    intro h
    simp only [dropTrailingWs]
    cases hdt : dropTrailingWs t with
    | nil =>
      by_cases hx : isWs x = true
      · rw [if_pos hx]; exact List.chain'_nil
      · rw [if_neg hx]; exact List.chain'_singleton x
    | cons y ys =>
      have ht : List.Chain' R (y :: ys) := hdt ▸ ih h.tail
      refine List.chain'_cons'.mpr ⟨?_, ht⟩
      intro z hz
      rcases dropTrailingWs_head? t with hnil | hhd
      · rw [hnil] at hdt; cases hdt
      · rw [hdt] at hhd
        refine (List.chain'_cons'.mp h).1 z ?_
        rw [← hhd]
        exact hz

/-- The head of `dropWhile isWs` is not whitespace. -/
theorem dropWhile_isWs_head? : ∀ {l : List Char} {c : Char},
    (l.dropWhile isWs).head? = some c → isWs c = false := by
  intro l
  induction l with
  | nil => intro c h; cases h
  | cons x t ih =>
    intro c h
    by_cases hx : isWs x = true
    · rw [List.dropWhile_cons_of_pos hx] at h
      exact ih h
    · rw [List.dropWhile_cons_of_neg hx] at h
      simp only [List.head?_cons, Option.some.injEq] at h
      subst h
      exact Bool.not_eq_true _ ▸ hx

/-- The last character after dropping trailing whitespace is not
whitespace. -/
theorem dropTrailingWs_getLast? : ∀ {l : List Char} {c : Char},
    (dropTrailingWs l).getLast? = some c → isWs c = false := by
  intro l
  induction l with
  | nil => intro c h; cases h
  | cons x t ih =>
    intro c h
    simp only [dropTrailingWs] at h
    cases hdt : dropTrailingWs t with
    | nil =>
      rw [hdt] at h
      by_cases hx : isWs x = true
      · rw [if_pos hx] at h; cases h
      · rw [if_neg hx] at h
        simp only [List.getLast?_singleton, Option.some.injEq] at h
        subst h
        exact Bool.not_eq_true _ ▸ hx
    | cons y ys =>
      rw [hdt] at h
      rw [List.getLast?_cons_cons] at h
      rw [← hdt] at h
      exact ih h

/-- Stage A: `normalizeL` always lands in the normal form. -/
theorem normalizeL_normalForm (l : List Char) : NormalForm (normalizeL l) := by
  have hchars : ∀ c ∈ trimL (collapseL false (nfkdL l)),
      lookupChar c nfkdTable = none ∧ (isWs c = true → c = ' ') := by
    intro c hc
    have hc2 : c ∈ collapseL false (nfkdL l) := by
      unfold trimL at hc
      exact (List.dropWhile_sublist isWs).subset (dropTrailingWs_subset _ c hc)
    rcases collapseL_chars (nfkdL l) false c hc2 with h | ⟨h1, h2⟩
    · subst h
      exact ⟨space_inert.1, fun _ => rfl⟩
    · exact ⟨nfkdL_inert l c h1, fun hw => absurd hw (by simp [h2])⟩
  have hdef : normalizeL l = (trimL (collapseL false (nfkdL l))).map toLowerCh :=
    rfl
  rw [hdef]
  constructor
  · intro c hc
    rcases List.mem_map.mp hc with ⟨d, hd, rfl⟩
    obtain ⟨hdn, hdw⟩ := hchars d hd
    obtain ⟨h1, h2⟩ := toLowerCh_inert hdn
    refine ⟨h1, h2, ?_⟩
    intro hw
    rw [isWs_toLowerCh] at hw
    have := hdw hw
    subst this
    unfold toLowerCh
    rw [space_inert.2]
    rfl
  · rw [List.chain'_map]
    have hch : List.Chain' (fun a c => ¬(isWs a = true ∧ isWs c = true))
        (trimL (collapseL false (nfkdL l))) := by
      unfold trimL
      exact chain'_dropTrailingWs
        (chain'_dropWhile (collapseL_shape (nfkdL l) false).1)
    refine hch.imp ?_
    intro a b hab hc
    refine hab ⟨?_, ?_⟩
    · rw [← isWs_toLowerCh]; exact hc.1
    · rw [← isWs_toLowerCh]; exact hc.2
  · intro c hc
    rw [List.head?_map] at hc
    cases hh : (trimL (collapseL false (nfkdL l))).head? with
    | none => rw [hh] at hc; cases hc
    | some d =>
      rw [hh] at hc
      have hcd : toLowerCh d = c := by simpa using hc
      subst hcd
      rw [isWs_toLowerCh]
      unfold trimL at hh
      rcases dropTrailingWs_head? ((collapseL false (nfkdL l)).dropWhile isWs)
        with hnil | hhd
      · rw [hnil] at hh; cases hh
      · rw [hh] at hhd
        exact dropWhile_isWs_head? hhd.symm
  · intro c hc
    rw [List.getLast?_map] at hc
    cases hh : (trimL (collapseL false (nfkdL l))).getLast? with
    | none => rw [hh] at hc; cases hc
    | some d =>
      rw [hh] at hc
      have hcd : toLowerCh d = c := by simpa using hc
      subst hcd
      rw [isWs_toLowerCh]
      exact dropTrailingWs_getLast? hh

/-- NFKD is the identity on NFKD-inert characters. -/
theorem nfkdL_fixed : ∀ {l : List Char},
    (∀ c ∈ l, lookupChar c nfkdTable = none) → nfkdL l = l := by
  intro l
  induction l with
  | nil => intro _; rfl
  | cons x t ih =>
    intro h
    have hx := h x (List.mem_cons_self _ _)
    simp only [nfkdL, nfkdChar, hx, Option.getD_none]
    rw [ih (fun c hc => h c (List.mem_cons_of_mem _ hc))]
    rfl

/-- Collapse is the identity on space-normal lists. -/
theorem collapseL_fixed : ∀ (l : List Char) (b : Bool),
    (∀ c ∈ l, isWs c = true → c = ' ') →
    List.Chain' (fun a c => ¬(isWs a = true ∧ isWs c = true)) l →
    (b = true → ∀ c, l.head? = some c → isWs c = false) →
    collapseL b l = l := by
  intro l
  induction l with
  | nil => intro b _ _ _; rfl
  | cons x t ih =>
    intro b hws hch hhd
    by_cases hx : isWs x = true
    · have hx' : x = ' ' := hws x (List.mem_cons_self _ _) hx
      cases b with
      | true =>
        have := hhd rfl x rfl
        rw [hx] at this
        cases this
      | false =>
        rw [collapseL, if_pos hx, if_neg Bool.false_ne_true]
        rw [hx']
        congr 1
        refine ih true (fun c hc hw => hws c (List.mem_cons_of_mem _ hc) hw)
          hch.tail ?_
        intro _ c hc
        have := (List.chain'_cons'.mp hch).1 c (by rw [hc]; rfl)
        by_cases hcw : isWs c = true
        · exact absurd ⟨hx, hcw⟩ this
        · exact Bool.not_eq_true _ ▸ hcw
    · rw [collapseL, if_neg hx]
      congr 1
      exact ih false (fun c hc hw => hws c (List.mem_cons_of_mem _ hc) hw)
        hch.tail (fun h => by cases h)

/-- `dropWhile isWs` is the identity when the head is not whitespace. -/
theorem dropWhile_isWs_fixed {l : List Char}
    (h : ∀ c, l.head? = some c → isWs c = false) : l.dropWhile isWs = l := by
  cases l with
  | nil => rfl
  | cons x t =>
    have := h x rfl
    exact List.dropWhile_cons_of_neg (by simp [this])

/-- Dropping trailing whitespace is the identity when the last character
is not whitespace. -/
theorem dropTrailingWs_fixed : ∀ {l : List Char},
    (∀ c, l.getLast? = some c → isWs c = false) → dropTrailingWs l = l := by
  intro l
  induction l with
  | nil => intro _; rfl
  | cons x t ih =>
    intro h
    cases t with
    | nil =>
      have := h x rfl
      simp only [dropTrailingWs]
      rw [if_neg (by simp [this])]
    | cons y ys =>
      have ht : dropTrailingWs (y :: ys) = y :: ys :=
        ih (fun c hc => h c (by rw [List.getLast?_cons_cons]; exact hc))
      calc dropTrailingWs (x :: y :: ys)
          = (match dropTrailingWs (y :: ys) with
             | [] => if isWs x = true then [] else [x]
             | t' => x :: t') := rfl
        _ = (match y :: ys with
             | [] => if isWs x = true then [] else [x]
             | t' => x :: t' : List Char) := by rw [ht]
        _ = x :: y :: ys := rfl

/-- Stage B: `normalizeL` is the identity on normal forms. -/
theorem normalizeL_fixed {l : List Char} (h : NormalForm l) :
    normalizeL l = l := by
  have h1 : nfkdL l = l := nfkdL_fixed (fun c hc => (h.inert c hc).1)
  have h2 : collapseL false l = l :=
    collapseL_fixed l false (fun c hc => (h.inert c hc).2.2) h.noAdj
      (fun hfalse => by cases hfalse)
  have h3 : l.dropWhile isWs = l := dropWhile_isWs_fixed h.headOk
  have h4 : dropTrailingWs l = l := dropTrailingWs_fixed h.lastOk
  have h5 : l.map toLowerCh = l := by
    have : ∀ c ∈ l, toLowerCh c = c := by
      intro c hc
      unfold toLowerCh
      rw [(h.inert c hc).2.1]
      rfl
    calc l.map toLowerCh = l.map id := List.map_congr_left this
      _ = l := List.map_id l
  unfold normalizeL trimL
  rw [h1, h2, h3, h4, h5]

/-- Claim C8: `normalize` is idempotent on every non-empty string
(`normalize(normalize(s)) == normalize(s)`), where `normalize` is NFKD
decomposition, collapsing whitespace runs to one space, trimming and
lower-casing. -/
theorem normalize_idempotent : ∀ s : String, s ≠ "" →
    normalize (normalize s) = normalize s := by
  intro s _
  unfold normalize
  have hdata : (String.mk (normalizeL s.data)).data = normalizeL s.data := rfl
  rw [hdata, normalizeL_fixed (normalizeL_normalForm s.data)]

/-- Witness for C8 at a concrete input (mixed case, accents, whitespace
runs, padding). -/
theorem normalize_idempotent_witness :
    normalize (normalize " Grande  RÉSERVE ") =
      normalize " Grande  RÉSERVE " :=
  normalize_idempotent " Grande  RÉSERVE " (by decide)

end OcrLabel
